import Mathlib

/-!
Verification of the managed-notifications ingestion and search pipelines.

The development shallowly embeds the two Python modules
`scripts/build_embeddings.py` and `main.py`:

* JSON values are modelled by the inductive `JsonValue` (numbers are
  modelled as integers; float literals are outside the modelled domain).
* Python truthiness (`if value:`) is `pyTruthy`, Python `str(...)` is
  `pyStr` (for non-string containers it renders a Python-style repr;
  string escaping inside a repr is not modelled, which no theorem relies
  on), and `json.dumps` is `jsonDumps`.
* The ingestion walk `process_notification_files` is embedded over an
  explicit list of discovered files, where a file records its relative
  path segments and either its parsed JSON content or `none` for a file
  that raises `json.JSONDecodeError` / `FileNotFoundError`.
* `print` error reporting inside the walk loop is modelled as an
  accumulated log of messages.
* The walk's `except` clause catches only `json.JSONDecodeError` and
  `FileNotFoundError`; the path taken by any other exception (which
  aborts the batch) is modelled by the `Except`-valued refinement
  `processFromE` over full read outcomes (`RawFile`).
-/

/-- JSON values as produced by Python's `json.load`.  Numbers are modelled
as integers; objects keep their key/value pairs in insertion order. -/
inductive JsonValue where
  | null : JsonValue
  | bool : Bool → JsonValue
  | num : Int → JsonValue
  | str : String → JsonValue
  | arr : List JsonValue → JsonValue
  | obj : List (String × JsonValue) → JsonValue
deriving Inhabited

namespace JsonValue

/-- Python truthiness of a JSON value (`if value:`). -/
def pyTruthy : JsonValue → Bool
  | .null => false
  | .bool b => b
  | .num n => n ≠ 0
  | .str s => s ≠ ""
  | .arr xs => ¬ xs.isEmpty
  | .obj fs => ¬ fs.isEmpty

mutual

/-- Depth of a JSON value, used as fuel for the structurally bounded
renderers below. -/
def depth : JsonValue → Nat
  | .null => 1
  | .bool _ => 1
  | .num _ => 1
  | .str _ => 1
  | .arr xs => 1 + depthList xs
  | .obj fs => 1 + depthFields fs

/-- Maximum depth over a list of JSON values. -/
def depthList : List JsonValue → Nat
  | [] => 0
  | v :: vs => max (depth v) (depthList vs)

/-- Maximum depth over the values of an object's fields. -/
def depthFields : List (String × JsonValue) → Nat
  | [] => 0
  | kv :: kvs => max (depth kv.2) (depthFields kvs)

end

/-- Python `repr` of a JSON value, with fuel bounding the recursion depth
(`fuel ≥ depth` renders fully; the fuel-exhausted branch is never reached
from `pyRepr`, which passes `depth`). -/
def pyReprAux : Nat → JsonValue → String
  | 0, _ => ""
  | _ + 1, .null => "None"
  | _ + 1, .bool true => "True"
  | _ + 1, .bool false => "False"
  | _ + 1, .num n => toString n
  | _ + 1, .str s => "\x27" ++ s ++ "\x27"
  | fuel + 1, .arr xs =>
      "[" ++ String.intercalate ", " (xs.map (pyReprAux fuel)) ++ "]"
  | fuel + 1, .obj fs =>
      "\x7b" ++
        String.intercalate ", "
          (fs.map (fun kv => "\x27" ++ kv.1 ++ "\x27: " ++ pyReprAux fuel kv.2)) ++
      "\x7d"

/-- Python `repr` of a JSON value. -/
def pyRepr (v : JsonValue) : String := pyReprAux v.depth v

/-- Python `str(...)` applied to a JSON value: the identity on strings,
`repr` otherwise. -/
def pyStr : JsonValue → String
  | .str s => s
  | v => pyRepr v

/-- Escape a character for a JSON string literal (`json.dumps`). -/
def jsonEscape (c : Char) : String :=
  if c = '"' then "\\\"" else if c = '\\' then "\\\\" else String.singleton c

/-- `json.dumps`, with fuel bounding the recursion depth. -/
def jsonDumpsAux : Nat → JsonValue → String
  | 0, _ => ""
  | _ + 1, .null => "null"
  | _ + 1, .bool true => "true"
  | _ + 1, .bool false => "false"
  | _ + 1, .num n => toString n
  | _ + 1, .str s => "\"" ++ String.join (s.toList.map jsonEscape) ++ "\""
  | fuel + 1, .arr xs =>
      "[" ++ String.intercalate ", " (xs.map (jsonDumpsAux fuel)) ++ "]"
  | fuel + 1, .obj fs =>
      "\x7b" ++
        String.intercalate ", "
          (fs.map (fun kv =>
            "\"" ++ String.join (kv.1.toList.map jsonEscape) ++ "\": " ++
              jsonDumpsAux fuel kv.2)) ++
      "\x7d"

/-- Python's `json.dumps` of a JSON value. -/
def jsonDumps (v : JsonValue) : String := jsonDumpsAux v.depth v

/-- Python `data.get(key)` / `key in data` on a parsed JSON value: a field
lookup that succeeds only on objects (the sources only ever apply it to
parsed notification objects). -/
def getField : JsonValue → String → Option JsonValue
  | .obj fs, key => fs.lookup key
  | _, _ => none

/-- Python `data.get(key, default)`. -/
def getD (v : JsonValue) (key : String) (default : JsonValue) : JsonValue :=
  (v.getField key).getD default

end JsonValue

/-!  ### Python string primitives  -/

/-- Lexicographic comparison of character lists by code point, the order
Python's `sorted` uses on strings. -/
def charListLe : List Char → List Char → Bool
  | [], _ => true
  | _ :: _, [] => false
  | a :: as, b :: bs => if a = b then charListLe as bs else decide (a < b)

/-- Python's string comparison `a <= b`, executable by the kernel. -/
def strLeB (a b : String) : Bool := charListLe a.toList b.toList

/-- Python's string comparison as a relation (shown below to agree with
the standard lexicographic order on `String`). -/
def pyStrLe (a b : String) : Prop := strLeB a b = true

instance : DecidableRel pyStrLe := fun a b => by unfold pyStrLe; infer_instance

/-- Python's `str.strip()`: the string with leading and trailing
whitespace removed. -/
def pyStrip (s : String) : String :=
  (((s.toList.dropWhile Char.isWhitespace).reverse.dropWhile Char.isWhitespace).reverse).asString

/-!  ### `build_embeddings.py`: placeholder extraction  -/

/-- The left-to-right scan performed by `re.findall` with the pattern
`\$\{([^\x7d]+)\}`: at each position, a match requires a dollar sign, an
opening brace, a maximal non-empty run of non-brace characters, and a
closing brace; on a match the scan resumes after the closing brace, on a
failure it advances one character.  The fuel argument only bounds the
number of scan steps (`scanPlaceholders` passes the input length, which
always suffices since every step consumes at least one character). -/
def findPlaceholders : Nat → List Char → List String
  | 0, _ => []
  | _ + 1, [] => []
  | fuel + 1, '$' :: '\x7b' :: rest =>
      let inner := rest.takeWhile (fun c => c ≠ '\x7d')
      (match rest.drop inner.length with
       | '\x7d' :: rest2 =>
         if inner.isEmpty then findPlaceholders fuel ('\x7b' :: rest)
         else inner.asString :: findPlaceholders fuel rest2
       | _ => findPlaceholders fuel ('\x7b' :: rest))
  | fuel + 1, _ :: rest => findPlaceholders fuel rest

/-- All captures of the placeholder pattern in a string, in scan order,
duplicates retained. -/
def scanPlaceholders (text : String) : List String :=
  findPlaceholders text.toList.length text.toList

/-- `extract_variables` from `scripts/build_embeddings.py`: the captured
placeholder names with duplicates removed and sorted; empty (falsy) input
yields `[]`. -/
def extract_variables (text : String) : List String :=
  if text = "" then []
  else List.insertionSort pyStrLe (scanPlaceholders text).dedup

/-!  ### `build_embeddings.py`: searchable-text composition  -/

/-- The strings Python appends through
`text_parts.extend(notification_data["_tags"])`: the elements of a JSON
array (string elements contribute themselves; for a non-string element
CPython's `" ".join` would raise `TypeError`, outside the modelled domain,
rendered here by `str`), the characters of a string (Python iterates a
string character by character), and nothing for other values. -/
def tagStrings : JsonValue → List String
  | .arr xs => xs.map JsonValue.pyStr
  | .str s => s.toList.map String.singleton
  | _ => []

/-- `extract_searchable_text` from `scripts/build_embeddings.py`. -/
def extract_searchable_text (notification_data : JsonValue) : String :=
  let searchable_fields := ["summary", "description", "log_type", "service_name"]
  let field_parts := searchable_fields.filterMap (fun field =>
    match notification_data.getField field with
    | some v => if v.pyTruthy then some v.pyStr else none
    | none => none)
  let text_parts := field_parts ++
    (match notification_data.getField "_tags" with
     | some v => if v.pyTruthy then tagStrings v else []
     | none => [])
  String.intercalate " " text_parts

/-- The spec's typed view of a NotificationRecord (§3): the four
recognized text fields and the tag list. -/
structure RecordView where
  summary : Option String
  description : Option String
  log_type : Option String
  service_name : Option String
  tags : List String

/-- Second definition for the refinement claim on searchable text,
written from the spec's words (§4.2): concatenate `summary`,
`description`, `log_type`, `service_name`, then each tag in `_tags`
order, joined by single spaces; absent or empty fields contribute
nothing. -/
def composerSpec (r : RecordView) : String :=
  String.intercalate " "
    (([r.summary, r.description, r.log_type, r.service_name].filterMap
        (fun o =>
          match o with
          | some s => if s = "" then none else some s
          | none => none)) ++ r.tags)

/-- A record field read as a string, when present and a string. -/
def strField (d : JsonValue) (field : String) : Option String :=
  match d.getField field with
  | some (.str s) => some s
  | _ => none

/-- The field is absent or holds a string. -/
def strOrAbsentB (d : JsonValue) (field : String) : Bool :=
  match d.getField field with
  | none => true
  | some (.str _) => true
  | some _ => false

/-- `_tags` is absent or an array of strings. -/
def strTagsB (d : JsonValue) : Bool :=
  match d.getField "_tags" with
  | none => true
  | some (.arr xs) => xs.all (fun v => match v with | .str _ => true | _ => false)
  | some _ => false

/-- The record matches the spec's data model for the recognized text
fields and tags. -/
def wellFormedB (d : JsonValue) : Bool :=
  (["summary", "description", "log_type", "service_name"].all (strOrAbsentB d)) &&
    strTagsB d

/-- The spec's view of a parsed record. -/
def toRecordView (d : JsonValue) : RecordView :=
  { summary := strField d "summary"
    description := strField d "description"
    log_type := strField d "log_type"
    service_name := strField d "service_name"
    tags :=
      match d.getField "_tags" with
      | some (.arr xs) =>
          xs.filterMap (fun v => match v with | .str s => some s | _ => none)
      | _ => [] }

/-!  ### `build_embeddings.py`: corpus walk  -/

/-- `get_folder_metadata` from `scripts/build_embeddings.py`, over the
path segments of the file relative to the notifications directory. -/
def get_folder_metadata (relParts : List String) : String :=
  if 1 < relParts.length then relParts.headD "" else "root"

/-- A discovered `.json` file: its path segments relative to the corpus
root, and its parsed content, `none` when reading it raises
`json.JSONDecodeError` or `FileNotFoundError` — the two exceptions the
walk catches.  Exceptions the walk does not catch are outside this view;
`RawFile` further below carries the full read outcome. -/
structure SrcFile where
  relParts : List String
  content : Option JsonValue

/-- Stored metadata: a Python dict of ChromaDB metadata values. -/
abbrev Meta := List (String × JsonValue)

/-- The sorted variable set collected from the `summary` and `description`
fields (`all_variables` in `process_notification_files`). -/
def collectVariables (notification_data : JsonValue) : List String :=
  let fromField := fun (field : String) =>
    match notification_data.getField field with
    | some v => if v.pyTruthy then extract_variables v.pyStr else []
    | none => []
  List.insertionSort pyStrLe (fromField "summary" ++ fromField "description").dedup

/-- The metadata dict appended for one accepted notification file. -/
def buildMeta (file : SrcFile) (notification_data : JsonValue) : Meta :=
  [("file_path", .str (String.intercalate "/" file.relParts)),
   ("folder", .str (get_folder_metadata file.relParts)),
   ("severity", notification_data.getD "severity" (.str "Unknown")),
   ("service_name", notification_data.getD "service_name" (.str "Unknown")),
   ("log_type", notification_data.getD "log_type" (.str "Unknown")),
   ("internal_only", notification_data.getD "internal_only" (.bool false)),
   ("variables", .str (JsonValue.jsonDumps (.arr ((collectVariables notification_data).map .str)))),
   ("full_json", .str (JsonValue.jsonDumps notification_data))]

/-- The id Python builds with the f-string `f"notification_{idx}"`. -/
def noteId (idx : Nat) : String := "notification_" ++ Nat.repr idx

/-- The three parallel sequences accumulated by
`process_notification_files`, together with the log of
`Error processing ...` messages printed for files whose read or parse
raised. -/
@[ext]
structure WalkResult where
  documents : List String
  metadatas : List Meta
  ids : List String
  log : List String

/-- The `print` message for a file whose read or parse raised, without
the exception detail the `SrcFile` view does not carry (`errMsgE` below
includes it). -/
def errMsg (file : SrcFile) : String :=
  "Error processing " ++ String.intercalate "/" file.relParts

/-- The walk loop of `process_notification_files`, from a given
`enumerate` index. -/
def processFrom : Nat → List SrcFile → WalkResult
  | _, [] => ⟨[], [], [], []⟩
  | idx, file :: rest =>
    match file.content with
    | none =>
        let r := processFrom (idx + 1) rest
        { r with log := errMsg file :: r.log }
    | some notification_data =>
        let searchable_text := extract_searchable_text notification_data
        if pyStrip searchable_text = "" then processFrom (idx + 1) rest
        else
          let r := processFrom (idx + 1) rest
          { documents := searchable_text :: r.documents
            metadatas := buildMeta file notification_data :: r.metadatas
            ids := noteId idx :: r.ids
            log := r.log }

/-- `process_notification_files` from `scripts/build_embeddings.py`, over
the list of discovered files in walk order. -/
def process_notification_files (files : List SrcFile) : WalkResult :=
  processFrom 0 files

/-- The document contributed by one file, if it is accepted: present
exactly when the file parses and its searchable text does not strip to
empty. -/
def acceptedDoc (f : SrcFile) : Option String :=
  match f.content with
  | some d =>
      if pyStrip (extract_searchable_text d) = "" then none
      else some (extract_searchable_text d)
  | none => none

/-- The metadata dict contributed by one file, if it is accepted. -/
def acceptedMeta (f : SrcFile) : Option Meta :=
  match f.content with
  | some d =>
      if pyStrip (extract_searchable_text d) = "" then none
      else some (buildMeta f d)
  | none => none

/-- The log message contributed by one file, if its read or parse raised. -/
def errEntry (f : SrcFile) : Option String :=
  match f.content with
  | some _ => none
  | none => some (errMsg f)

/-- The `enumerate` indices of the files the walk accepts, in walk
order. -/
def acceptedOrdinals (files : List SrcFile) : List Nat :=
  ((files.enumFrom 0).filter (fun p => (acceptedDoc p.2).isSome)).map Prod.fst

/-!  ### The corpus walk with the uncaught-exception path

The walk's `except` clause catches only `json.JSONDecodeError` and
`FileNotFoundError`.  Any other exception raised while opening or reading
a file — `PermissionError` on an unreadable path, `IsADirectoryError` on
a directory named `*.json` — propagates out of the loop and aborts the
whole batch.  `SrcFile` collapses that path (it can only describe runs
where every failure is one of the two caught exceptions), so the refined
model below carries the full read outcome and returns `Except`:
`Except.error` models the uncaught exception escaping
`process_notification_files` with nothing returned.  Error messages
printed before an abort are part of the discarded run and are not
retained in the abort result. -/

/-- The outcome of opening and `json.load`-ing one discovered file:
success; one of the two exceptions the walk catches
(`json.JSONDecodeError`, `FileNotFoundError`) with its message; or any
other exception (e.g. `PermissionError`, `IsADirectoryError`) with its
message, which the walk does not catch. -/
inductive ReadOutcome where
  | ok (data : JsonValue)
  | caught (exc : String)
  | uncaught (exc : String)

/-- A discovered file together with its full read outcome, refining
`SrcFile`. -/
structure RawFile where
  relParts : List String
  outcome : ReadOutcome

/-- The `SrcFile` view of a `RawFile`: both failure kinds collapse to
`none`.  Only faithful to the walk on files whose failures are caught. -/
def RawFile.toSrc (f : RawFile) : SrcFile :=
  ⟨f.relParts,
   match f.outcome with
   | .ok d => some d
   | .caught _ => none
   | .uncaught _ => none⟩

/-- Whether the file's read raises an exception the walk does not
catch. -/
def RawFile.isUncaught (f : RawFile) : Bool :=
  match f.outcome with
  | .uncaught _ => true
  | _ => false

/-- The walk's error print for a caught exception, message included:
`Error processing <path>: <exc>` (paths modelled relative to the corpus
root). -/
def errMsgE (f : RawFile) (exc : String) : String :=
  "Error processing " ++ String.intercalate "/" f.relParts ++ ": " ++ exc

/-- The log entry contributed by one file, present exactly when its
failure is caught. -/
def errEntryE (f : RawFile) : Option String :=
  match f.outcome with
  | .caught exc => some (errMsgE f exc)
  | _ => none

/-- The exception message of the first file whose read raises an
uncaught exception, if any: the point where the batch aborts. -/
def firstUncaught : List RawFile → Option String
  | [] => none
  | f :: rest =>
    match f.outcome with
    | .uncaught exc => some exc
    | _ => firstUncaught rest

/-- The walk loop of `process_notification_files` over full read
outcomes: `json.JSONDecodeError` and `FileNotFoundError` are caught,
logged and skipped; any other exception propagates, aborting the walk
with nothing returned. -/
def processFromE : Nat → List RawFile → Except String WalkResult
  | _, [] => .ok ⟨[], [], [], []⟩
  | idx, file :: rest =>
    match file.outcome with
    | .uncaught exc => .error exc
    | .caught exc =>
        match processFromE (idx + 1) rest with
        | .ok r => .ok { r with log := errMsgE file exc :: r.log }
        | .error e => .error e
    | .ok notification_data =>
        let searchable_text := extract_searchable_text notification_data
        if pyStrip searchable_text = "" then processFromE (idx + 1) rest
        else
          match processFromE (idx + 1) rest with
          | .ok r =>
              .ok { documents := searchable_text :: r.documents
                    metadatas := buildMeta ⟨file.relParts, some notification_data⟩
                      notification_data :: r.metadatas
                    ids := noteId idx :: r.ids
                    log := r.log }
          | .error e => .error e

/-!  ### `main.py`: parsing stored JSON strings back

A model of Python's `json.loads`, written as a fueled recursive-descent
parser over the character list.  It is slightly lenient on numbers
(leading zeros accepted; float literals, exponents and `\u` escapes are
rejected rather than parsed) — no theorem below depends on inputs where
this differs from Python. -/

/-- Skip JSON whitespace. -/
def skipWs (cs : List Char) : List Char :=
  cs.dropWhile (fun c => c = ' ' || c = '\t' || c = '\n' || c = '\r')

/-- Decode a single-character JSON escape. -/
def jsonUnescape (c : Char) : Option Char :=
  if c = '"' then some '"'
  else if c = '\\' then some '\\'
  else if c = '/' then some '/'
  else if c = 'n' then some '\n'
  else if c = 't' then some '\t'
  else if c = 'r' then some '\r'
  else if c = 'b' then some '\x08'
  else if c = 'f' then some '\x0c'
  else none

/-- Parse the body of a JSON string after the opening quote, returning the
decoded characters and the input after the closing quote. -/
def parseStringBody : List Char → Option (List Char × List Char)
  | [] => none
  | '"' :: rest => some ([], rest)
  | '\\' :: c :: rest => do
      let e ← jsonUnescape c
      let (s, r) ← parseStringBody rest
      pure (e :: s, r)
  | c :: rest => do
      let (s, r) ← parseStringBody rest
      pure (c :: s, r)

/-- Parse a non-empty run of decimal digits as a natural number. -/
def parseNatNum (cs : List Char) : Option (Nat × List Char) :=
  let ds := cs.takeWhile Char.isDigit
  if ds.isEmpty then none
  else some (ds.foldl (fun a c => a * 10 + (c.toNat - 48)) 0, cs.drop ds.length)

mutual

/-- Parse one JSON value; the fuel bounds the nesting depth and is never
exhausted when it starts at the input length plus one. -/
def parseValue : Nat → List Char → Option (JsonValue × List Char)
  | 0, _ => none
  | fuel + 1, cs =>
    match skipWs cs with
    | 'n' :: 'u' :: 'l' :: 'l' :: rest => some (.null, rest)
    | 't' :: 'r' :: 'u' :: 'e' :: rest => some (.bool true, rest)
    | 'f' :: 'a' :: 'l' :: 's' :: 'e' :: rest => some (.bool false, rest)
    | '"' :: rest => (parseStringBody rest).map (fun p => (.str p.1.asString, p.2))
    | '[' :: rest =>
        (match skipWs rest with
         | ']' :: r2 => some (.arr [], r2)
         | _ => (parseElems fuel rest).map (fun p => (.arr p.1, p.2)))
    | '\x7b' :: rest =>
        (match skipWs rest with
         | '\x7d' :: r2 => some (.obj [], r2)
         | _ => (parseMembers fuel rest).map (fun p => (.obj p.1, p.2)))
    | '-' :: rest => (parseNatNum rest).map (fun p => (.num (-(p.1 : Int)), p.2))
    | rest => (parseNatNum rest).map (fun p => (.num (p.1 : Int), p.2))

/-- Parse the comma-separated elements of a non-empty JSON array,
consuming the closing bracket. -/
def parseElems : Nat → List Char → Option (List JsonValue × List Char)
  | 0, _ => none
  | fuel + 1, cs => do
      let (v, r) ← parseValue fuel cs
      match skipWs r with
      | ',' :: r2 => do
          let (vs, r3) ← parseElems fuel r2
          pure (v :: vs, r3)
      | ']' :: r2 => pure ([v], r2)
      | _ => none

/-- Parse the members of a non-empty JSON object, consuming the closing
brace. -/
def parseMembers : Nat → List Char → Option (List (String × JsonValue) × List Char)
  | 0, _ => none
  | fuel + 1, cs =>
    match skipWs cs with
    | '"' :: rest => do
        let (k, r) ← parseStringBody rest
        match skipWs r with
        | ':' :: r2 => do
            let (v, r3) ← parseValue fuel r2
            (match skipWs r3 with
             | ',' :: r4 => do
                 let (ms, r5) ← parseMembers fuel r4
                 pure ((k.asString, v) :: ms, r5)
             | '\x7d' :: r4 => pure ([(k.asString, v)], r4)
             | _ => none)
        | _ => none
    | _ => none

end

/-- Python's `json.loads`: parse a complete JSON document, requiring the
whole input to be consumed (up to trailing whitespace); `none` models a
raised `json.JSONDecodeError`. -/
def jsonParse (s : String) : Option JsonValue :=
  match parseValue (s.toList.length + 1) s.toList with
  | some (v, rest) => if (skipWs rest).isEmpty then some v else none
  | none => none

/-!  ### `main.py`: result reconstruction  -/

/-- The per-match dict assembled by `search_notifications` in `main.py`.
Distances are modelled as rationals; the dict key `variables` is the
field `vars` here, `variables` being reserved in Lean. -/
structure SearchResult where
  id : String
  distance : ℚ
  similarity : ℚ
  file_path : String
  folder : String
  severity : String
  service_name : String
  log_type : String
  internal_only : Bool
  vars : JsonValue
  document_text : String
  notification : JsonValue

/-- The raw match bundle returned by the vector store's `query`: each of
the four arrays is either absent (`None`) or a list of per-query rows. -/
structure QueryResults where
  ids : Option (List (List String))
  metadatas : Option (List (List Meta))
  distances : Option (List (List ℚ))
  documents : Option (List (List String))

/-- Python's `results['k'][0] if results.get('k') and results['k'] else []`:
the first row of an array that is present and non-empty, else `[]`. -/
def firstRow : Option (List (List α)) → List α
  | some (row :: _) => row
  | _ => []

/-- The body of the reconstruction loop for one index: build a
`SearchResult` from the id, the metadata dict (empty when the metadata
array does not cover the index) and the already-defaulted distance and
document text. -/
def mkResult (theId : String) (metadata : Meta) (distance : ℚ) (document : String) :
    SearchResult :=
  let full_json_str := (metadata.lookup "full_json").getD (.str "\x7b\x7d")
  let full_json :=
    if full_json_str.pyTruthy then (jsonParse full_json_str.pyStr).getD (.obj [])
    else .obj []
  let variables_str := (metadata.lookup "variables").getD (.str "[]")
  let vars :=
    if variables_str.pyTruthy then (jsonParse variables_str.pyStr).getD (.arr [])
    else .arr []
  { id := theId
    distance := distance
    similarity := 1 - distance
    file_path := ((metadata.lookup "file_path").getD (.str "")).pyStr
    folder := ((metadata.lookup "folder").getD (.str "")).pyStr
    severity := ((metadata.lookup "severity").getD (.str "Unknown")).pyStr
    service_name := ((metadata.lookup "service_name").getD (.str "Unknown")).pyStr
    log_type := ((metadata.lookup "log_type").getD (.str "Unknown")).pyStr
    internal_only := ((metadata.lookup "internal_only").getD (.bool false)).pyTruthy
    vars := vars
    document_text := document
    notification := full_json }

/-- The `for i in range(len(ids))` loop of `search_notifications`: one
`SearchResult` per id, defaulting metadata to an empty dict, distance to
`0.0` and document text to `''` where the corresponding array does not
cover the index. -/
def formatResults (ids : List String) (metadatas : List Meta) (distances : List ℚ)
    (documents : List String) : List SearchResult :=
  (List.range ids.length).map (fun i =>
    mkResult (ids.getD i "") (metadatas.getD i []) (distances.getD i 0)
      (documents.getD i ""))

/-- The result built from an empty metadata dict and all defaults, used
as the out-of-range default when indexing a result list. -/
def emptyResult : SearchResult := mkResult "" [] 0 ""

/-- `NotificationSearchServer.search_notifications` from `main.py`, from
the point where the store's raw query results are in hand (the embedding
model call and the store query are the external collaborators producing
`results`). -/
def search_notifications (results : QueryResults) : List SearchResult :=
  match results.ids with
  | none => []
  | some idss =>
    if idss.isEmpty then []
    else if (idss.headD []).isEmpty then []
    else
      formatResults (firstRow results.ids) (firstRow results.metadatas)
        (firstRow results.distances) (firstRow results.documents)

/-- One element of the list returned by the `search_service_logs` tool:
either a reconstructed match or the advisory record used when there are
no matches.  (The `except` branch for backend failures is outside the
pure embedding.) -/
inductive ToolOutput where
  | result : SearchResult → ToolOutput
  | advisory : (message suggestion : String) → ToolOutput

/-- The `search_service_logs` tool from `main.py`, over the raw store
results of its inner `search_notifications` call. -/
def search_service_logs (results : QueryResults) : List ToolOutput :=
  let rs := search_notifications results
  if rs.isEmpty then
    [ToolOutput.advisory "No matching notifications found"
      "Try using different keywords or check if the database contains relevant notifications"]
  else rs.map ToolOutput.result

/-!  ### `main.py`: database stats  -/

/-- The store state read by `get_database_stats`: the collection's
`count()` and the `metadatas` array of `collection.get()`. -/
structure StoreState where
  count : Nat
  metadatas : Option (List Meta)

/-- The dict returned by `get_database_stats` (the `database_path` entry,
pure configuration, is not modelled). -/
structure DatabaseStats where
  total_notifications : Nat
  folders : List String
  severities : List String
  service_names : List String

/-- `str(metadata.get(key, 'unknown'))`: the stringified value of one
metadata key, with the `'unknown'` sentinel for missing keys. -/
def statValue (m : Meta) (key : String) : String :=
  ((m.lookup key).getD (.str "unknown")).pyStr

/-- `sorted(list(s))` for the set of stringified values of one metadata
key across all stored documents. -/
def statsField (metadatas : List Meta) (key : String) : List String :=
  List.insertionSort pyStrLe (metadatas.map (fun m => statValue m key)).dedup

/-- The `get_database_stats` tool from `main.py`.  It only reads the
store (`count()` and `get()`), never mutates it. -/
def get_database_stats (store : StoreState) : DatabaseStats :=
  let metadatas := (store.metadatas).getD []
  if metadatas.isEmpty then
    { total_notifications := store.count
      folders := []
      severities := []
      service_names := [] }
  else
    { total_notifications := store.count
      folders := statsField metadatas "folder"
      severities := statsField metadatas "severity"
      service_names := statsField metadatas "service_name" }

/-- Decimal digit characters of `n`, most significant first (proof-side
reference model for `Nat.repr`). -/
def decDigits (n : Nat) : List Char :=
  if _h : n < 10 then [Nat.digitChar n]
  else decDigits (n / 10) ++ [Nat.digitChar (n % 10)]
termination_by n
decreasing_by exact Nat.div_lt_self (by omega) (by omega)

/-- The numeric value of a big-endian list of decimal digit characters. -/
def decValue (ds : List Char) : Nat :=
  ds.foldl (fun a c => a * 10 + (c.toNat - 48)) 0

/-!  ### Order facts about the executable string comparison  -/

theorem list_le_iff_lex (as bs : List Char) :
    as ≤ bs ↔ as = bs ∨ List.Lex (· < ·) as bs := Iff.rfl

theorem charListLe_iff_le : ∀ as bs : List Char, charListLe as bs = true ↔ as ≤ bs := by
  intro as
  induction as with
  | nil =>
    intro bs
    simp only [charListLe, true_iff]
    exact List.nil_le
  | cons a as ih =>
    intro bs
    cases bs with
    | nil =>
      simp only [charListLe, Bool.false_eq_true, false_iff, list_le_iff_lex]
      rintro (h | h)
      · exact List.noConfusion h
      · exact List.Lex.not_nil_right _ _ h
    | cons b bs =>
      rw [list_le_iff_lex]
      by_cases hab : a = b
      · subst hab
        have hif : charListLe (a :: as) (a :: bs) = charListLe as bs := by
          simp [charListLe]
        rw [hif, ih bs, list_le_iff_lex]
        constructor
        · rintro (h | h)
          · exact Or.inl (by rw [h])
          · exact Or.inr (List.Lex.cons h)
        · rintro (h | h)
          · injection h with _ h2
            exact Or.inl h2
          · exact Or.inr (List.Lex.cons_iff.mp h)
      · have hif : charListLe (a :: as) (b :: bs) = decide (a < b) := by
          simp [charListLe, hab]
        rw [hif, decide_eq_true_eq]
        constructor
        · intro h
          exact Or.inr (List.Lex.rel h)
        · rintro (h | h)
          · injection h with h1 _
            exact absurd h1 hab
          · cases h with
            | cons h2 => exact absurd rfl hab
            | rel h2 => exact h2

theorem strLeB_iff_le (a b : String) : strLeB a b = true ↔ a ≤ b := by
  rw [strLeB, charListLe_iff_le, ← String.le_iff_toList_le]

theorem pyStrLe_iff_le (a b : String) : pyStrLe a b ↔ a ≤ b := strLeB_iff_le a b

/-- Python's `sorted(list(set(l)))`: sorted lexicographically. -/
theorem pySortDedup_sorted (l : List String) :
    (List.insertionSort pyStrLe l.dedup).Sorted (· ≤ ·) := by
  haveI : IsTrans String pyStrLe :=
    ⟨fun a b c hab hbc => (pyStrLe_iff_le a c).mpr
      (le_trans ((pyStrLe_iff_le a b).mp hab) ((pyStrLe_iff_le b c).mp hbc))⟩
  haveI : IsTotal String pyStrLe :=
    ⟨fun a b => by
      rcases le_total a b with h | h
      · exact Or.inl ((pyStrLe_iff_le a b).mpr h)
      · exact Or.inr ((pyStrLe_iff_le b a).mpr h)⟩
  exact (List.sorted_insertionSort pyStrLe l.dedup).imp (fun h => (pyStrLe_iff_le _ _).mp h)

/-- Python's `sorted(list(set(l)))`: free of duplicates. -/
theorem pySortDedup_nodup (l : List String) :
    (List.insertionSort pyStrLe l.dedup).Nodup :=
  ((List.perm_insertionSort pyStrLe l.dedup).nodup_iff).mpr l.nodup_dedup

/-- Python's `sorted(list(set(l)))`: same members as `l`. -/
theorem mem_pySortDedup (l : List String) (s : String) :
    s ∈ List.insertionSort pyStrLe l.dedup ↔ s ∈ l := by
  rw [(List.perm_insertionSort pyStrLe l.dedup).mem_iff, List.mem_dedup]

/-!  ### Injectivity of `Nat.repr`

Needed to show distinct walk ordinals give distinct `notification_<i>`
ids. -/

theorem toDigitsCore_eq_decDigits :
    ∀ (f n : Nat) (acc : List Char), n < f →
      Nat.toDigitsCore 10 f n acc = decDigits n ++ acc := by
  intro f
  induction f with
  | zero => intro n acc h; omega
  | succ f ih =>
    intro n acc h
    by_cases h10 : n / 10 = 0
    · have hn : n < 10 := by omega
      simp only [Nat.toDigitsCore]
      rw [if_pos h10, decDigits, dif_pos hn, Nat.mod_eq_of_lt hn]
      rfl
    · have hge : 10 ≤ n := by omega
      have hdiv : n / 10 < f := by omega
      have hrec : decDigits n = decDigits (n / 10) ++ [Nat.digitChar (n % 10)] := by
        rw [decDigits]
        exact dif_neg (by omega)
      simp only [Nat.toDigitsCore]
      rw [if_neg h10, ih _ _ hdiv, hrec, List.append_assoc]
      rfl

theorem digitChar_decode {d : Nat} (h : d < 10) : (Nat.digitChar d).toNat - 48 = d := by
  interval_cases d <;> rfl

theorem foldl_decValue (init : Nat) (ds : List Char) :
    ds.foldl (fun a c => a * 10 + (c.toNat - 48)) init =
      init * 10 ^ ds.length + decValue ds := by
  induction ds generalizing init with
  | nil => simp [decValue]
  | cons c ds ih =>
    simp only [List.foldl_cons, decValue, List.length_cons]
    rw [ih, ih (0 * 10 + (c.toNat - 48))]
    ring

theorem decValue_decDigits (n : Nat) : decValue (decDigits n) = n := by
  induction n using Nat.strong_induction_on with
  | _ n ih =>
    by_cases h : n < 10
    · rw [decDigits, dif_pos h]
      simp [decValue, digitChar_decode h]
    · rw [decDigits, dif_neg h, decValue, List.foldl_append]
      have hdiv : n / 10 < n := Nat.div_lt_self (by omega) (by omega)
      have := ih (n / 10) hdiv
      rw [decValue] at this
      simp only [List.foldl_cons, List.foldl_nil, this]
      rw [digitChar_decode (Nat.mod_lt n (by omega))]
      omega

theorem natRepr_eq_decDigits (n : Nat) : Nat.repr n = (decDigits n).asString := by
  rw [Nat.repr, Nat.toDigits, toDigitsCore_eq_decDigits _ _ _ (Nat.lt_succ_self n),
    List.append_nil]

theorem natRepr_injective : Function.Injective Nat.repr := by
  intro m n h
  rw [natRepr_eq_decDigits, natRepr_eq_decDigits] at h
  have hdata : decDigits m = decDigits n := congrArg String.data h
  calc m = decValue (decDigits m) := (decValue_decDigits m).symm
    _ = decValue (decDigits n) := by rw [hdata]
    _ = n := decValue_decDigits n

theorem noteId_injective : Function.Injective noteId := by
  intro m n h
  apply natRepr_injective
  have hdata := congrArg String.data h
  simp only [noteId, String.data_append] at hdata
  have := List.append_cancel_left hdata
  exact String.ext this

/-!  ### Closed forms for the corpus walk  -/

theorem processFrom_documents : ∀ (idx : Nat) (files : List SrcFile),
    (processFrom idx files).documents = files.filterMap acceptedDoc := by
  intro idx files
  induction files generalizing idx with
  | nil => rfl
  | cons f rest ih =>
    cases hf : f.content with
    | none => simp [processFrom, hf, acceptedDoc, ih (idx + 1)]
    | some d =>
      by_cases ht : pyStrip (extract_searchable_text d) = "" <;>
        simp [processFrom, hf, acceptedDoc, ht, ih (idx + 1)]

theorem processFrom_metadatas : ∀ (idx : Nat) (files : List SrcFile),
    (processFrom idx files).metadatas = files.filterMap acceptedMeta := by
  intro idx files
  induction files generalizing idx with
  | nil => rfl
  | cons f rest ih =>
    cases hf : f.content with
    | none => simp [processFrom, hf, acceptedMeta, ih (idx + 1)]
    | some d =>
      by_cases ht : pyStrip (extract_searchable_text d) = "" <;>
        simp [processFrom, hf, acceptedMeta, ht, ih (idx + 1)]

theorem processFrom_ids : ∀ (idx : Nat) (files : List SrcFile),
    (processFrom idx files).ids =
      ((files.enumFrom idx).filter (fun p => (acceptedDoc p.2).isSome)).map
        (fun p => noteId p.1) := by
  intro idx files
  induction files generalizing idx with
  | nil => rfl
  | cons f rest ih =>
    cases hf : f.content with
    | none => simp [processFrom, hf, acceptedDoc, ih (idx + 1)]
    | some d =>
      by_cases ht : pyStrip (extract_searchable_text d) = "" <;>
        simp [processFrom, hf, acceptedDoc, ht, ih (idx + 1)]

theorem processFrom_log : ∀ (idx : Nat) (files : List SrcFile),
    (processFrom idx files).log = files.filterMap errEntry := by
  intro idx files
  induction files generalizing idx with
  | nil => rfl
  | cons f rest ih =>
    cases hf : f.content with
    | none => simp [processFrom, hf, errEntry, errMsg, ih (idx + 1)]
    | some d =>
      by_cases ht : pyStrip (extract_searchable_text d) = "" <;>
        simp [processFrom, hf, errEntry, ht, ih (idx + 1)]

theorem enumFrom_append (l₁ l₂ : List SrcFile) : ∀ idx : Nat,
    (l₁ ++ l₂).enumFrom idx = l₁.enumFrom idx ++ l₂.enumFrom (idx + l₁.length) := by
  induction l₁ with
  | nil => intro idx; simp
  | cons f rest ih =>
    intro idx
    simp only [List.cons_append, List.enumFrom_cons, ih (idx + 1), List.length_cons]
    have : idx + 1 + rest.length = idx + (rest.length + 1) := by omega
    rw [this]

theorem fst_ge_of_mem_enumFrom {α : Type} :
    ∀ (l : List α) (idx : Nat) (p : Nat × α), p ∈ l.enumFrom idx → idx ≤ p.1 := by
  intro l
  induction l with
  | nil => simp
  | cons a rest ih =>
    intro idx p hp
    rw [List.enumFrom_cons] at hp
    rcases List.mem_cons.mp hp with h | h
    · subst h; exact le_refl idx
    · exact le_trans (by omega) (ih (idx + 1) p h)

theorem snd_mem_of_mem_enumFrom {α : Type} :
    ∀ (l : List α) (idx : Nat) (p : Nat × α), p ∈ l.enumFrom idx → p.2 ∈ l := by
  intro l
  induction l with
  | nil => simp
  | cons a rest ih =>
    intro idx p hp
    rw [List.enumFrom_cons] at hp
    rcases List.mem_cons.mp hp with h | h
    · subst h; exact List.mem_cons_self a rest
    · exact List.mem_cons_of_mem a (ih (idx + 1) p h)

theorem enumFrom_pairwise_fst_lt {α : Type} :
    ∀ (l : List α) (idx : Nat), (l.enumFrom idx).Pairwise (fun p q => p.1 < q.1) := by
  intro l
  induction l with
  | nil => intro idx; simp
  | cons a rest ih =>
    intro idx
    rw [List.enumFrom_cons]
    refine List.Pairwise.cons ?_ (ih (idx + 1))
    intro q hq
    have := fst_ge_of_mem_enumFrom _ _ _ hq
    simp only []
    omega

theorem walk_len : ∀ (idx : Nat) (files : List SrcFile),
    ((processFrom idx files).documents.length = (processFrom idx files).metadatas.length) ∧
    ((processFrom idx files).metadatas.length = (processFrom idx files).ids.length) := by
  intro idx files
  induction files generalizing idx with
  | nil => exact ⟨rfl, rfl⟩
  | cons f rest ih =>
    cases hf : f.content with
    | none => simpa [processFrom, hf] using ih (idx + 1)
    | some d =>
      by_cases ht : pyStrip (extract_searchable_text d) = "" <;>
        simpa [processFrom, hf, ht] using ih (idx + 1)

/-- C1 (counterexample): with a malformed first file followed by an
accepted file, the build accepts one document (`n = 1`) but its single id
is `notification_1`, not `notification_0`: the ids sequence is not the
consecutive sequence `notification_0 .. notification_(n-1)` over accepted
documents, because the walk ordinal counts all enumerated files, skipped
ones included. -/
theorem ids_not_consecutive_counterexample :
    ((process_notification_files
        [⟨["bad.json"], none⟩,
         ⟨["good.json"], some (.obj [("summary", .str "hello")])⟩]).ids
      = ["notification_1"]) ∧
    ((process_notification_files
        [⟨["bad.json"], none⟩,
         ⟨["good.json"], some (.obj [("summary", .str "hello")])⟩]).ids
      ≠ (List.range
          (process_notification_files
            [⟨["bad.json"], none⟩,
             ⟨["good.json"], some (.obj [("summary", .str "hello")])⟩]).documents.length).map
          noteId) := by
  constructor
  · rfl
  · decide

/-- C1 (amended): each accepted record's id is `notification_<i>` with
`i` its file's ordinal in the walk enumeration; the ordinals are strictly
increasing, so ids are unique within a build and aligned 1:1 with the
documents sequence, and they are exactly `notification_0 ..
notification_(n-1)` when no enumerated file is skipped (skipped files
leave gaps). -/
theorem ids_follow_walk_ordinals (files : List SrcFile) :
    ((process_notification_files files).ids = (acceptedOrdinals files).map noteId) ∧
    (acceptedOrdinals files).Sorted (· < ·) ∧
    (process_notification_files files).ids.Nodup ∧
    ((process_notification_files files).ids.length =
      (process_notification_files files).documents.length) ∧
    ((∀ f ∈ files, (acceptedDoc f).isSome) →
      (process_notification_files files).ids = (List.range files.length).map noteId) := by
  have hids : (process_notification_files files).ids = (acceptedOrdinals files).map noteId := by
    rw [process_notification_files, processFrom_ids, acceptedOrdinals, List.map_map]
    rfl
  have hsort : (acceptedOrdinals files).Sorted (· < ·) := by
    rw [acceptedOrdinals, List.Sorted, List.pairwise_map]
    exact List.Pairwise.sublist (List.filter_sublist _) (enumFrom_pairwise_fst_lt files 0)
  refine ⟨hids, hsort, ?_, ?_, ?_⟩
  · rw [hids]
    exact List.Nodup.map noteId_injective (hsort.imp (fun h => Nat.ne_of_lt h))
  · have h := walk_len 0 files
    rw [process_notification_files]
    omega
  · intro hall
    rw [hids, acceptedOrdinals, List.filter_eq_self.mpr ?_]
    · rw [List.enumFrom_map_fst, ← List.range_eq_range']
    · intro p hp
      exact hall p.2 (snd_mem_of_mem_enumFrom _ _ _ hp)

/-- C1 (witness): a one-file corpus whose file is accepted gets exactly
the ids `notification_0 ..`, i.e. `(range 1).map noteId`. -/
theorem ids_follow_walk_ordinals_witness :
    (process_notification_files
        [⟨["a.json"], some (.obj [("summary", .str "hi")])⟩]).ids
      = (List.range 1).map noteId := by
  have h := (ids_follow_walk_ordinals
      [⟨["a.json"], some (.obj [("summary", .str "hi")])⟩]).2.2.2.2
  exact h (by decide)

/-- Splitting the `SrcFile` walk around a file whose (caught) read or
parse failure is recorded as `content = none`: it contributes no
document, metadata or id, adds a log entry, and the rest of the batch is
still processed. -/
theorem processFrom_split_err (pre : List SrcFile) (f : SrcFile)
    (post : List SrcFile) (hf : f.content = none) :
    process_notification_files (pre ++ f :: post) =
      { documents := (processFrom 0 pre).documents ++
          (processFrom (pre.length + 1) post).documents
        metadatas := (processFrom 0 pre).metadatas ++
          (processFrom (pre.length + 1) post).metadatas
        ids := (processFrom 0 pre).ids ++ (processFrom (pre.length + 1) post).ids
        log := (processFrom 0 pre).log ++ errMsg f ::
          (processFrom (pre.length + 1) post).log } := by
  ext : 1
  all_goals
    simp [process_notification_files, processFrom_documents, processFrom_metadatas,
      processFrom_ids, processFrom_log, List.filterMap_append, acceptedDoc, acceptedMeta,
      errEntry, hf, enumFrom_append, List.filter_append]

/-!  ### The walk over full read outcomes  -/

theorem firstUncaught_eq_none_iff : ∀ files : List RawFile,
    firstUncaught files = none ↔ ∀ g ∈ files, g.isUncaught = false := by
  intro files
  induction files with
  | nil => simp [firstUncaught]
  | cons f rest ih =>
    cases hf : f.outcome with
    | uncaught exc =>
      simp only [firstUncaught, hf]
      constructor
      · intro h
        exact absurd h (by simp)
      · intro h
        have := h f (List.mem_cons_self f rest)
        rw [RawFile.isUncaught, hf] at this
        exact absurd this (by simp)
    | caught exc =>
      simp only [firstUncaught, hf, ih]
      constructor
      · intro h g hg
        rcases List.mem_cons.mp hg with hgf | hgr
        · subst hgf
          rw [RawFile.isUncaught, hf]
        · exact h g hgr
      · intro h g hg
        exact h g (List.mem_cons_of_mem f hg)
    | ok data =>
      simp only [firstUncaught, hf, ih]
      constructor
      · intro h g hg
        rcases List.mem_cons.mp hg with hgf | hgr
        · subst hgf
          rw [RawFile.isUncaught, hf]
        · exact h g hgr
      · intro h g hg
        exact h g (List.mem_cons_of_mem f hg)

theorem firstUncaught_append_of_none :
    ∀ (pre rest : List RawFile), firstUncaught pre = none →
      firstUncaught (pre ++ rest) = firstUncaught rest := by
  intro pre
  induction pre with
  | nil => intro rest _; rfl
  | cons f pre ih =>
    intro rest h
    cases hf : f.outcome with
    | uncaught exc =>
      rw [firstUncaught, hf] at h
      exact absurd h (by simp)
    | caught exc =>
      rw [firstUncaught, hf] at h
      simp only [List.cons_append, firstUncaught, hf]
      exact ih rest h
    | ok data =>
      rw [firstUncaught, hf] at h
      simp only [List.cons_append, firstUncaught, hf]
      exact ih rest h

/-- Closed form for the `Except`-valued walk: it aborts with the first
uncaught exception, and otherwise returns exactly the `SrcFile` walk's
documents, metadata and ids (on the collapsed view of the files),
together with the caught-failure log. -/
theorem processFromE_eq : ∀ (idx : Nat) (files : List RawFile),
    processFromE idx files =
      match firstUncaught files with
      | some exc => .error exc
      | none =>
          .ok { documents := (processFrom idx (files.map RawFile.toSrc)).documents
                metadatas := (processFrom idx (files.map RawFile.toSrc)).metadatas
                ids := (processFrom idx (files.map RawFile.toSrc)).ids
                log := files.filterMap errEntryE } := by
  intro idx files
  induction files generalizing idx with
  | nil => rfl
  | cons f rest ih =>
    cases hf : f.outcome with
    | uncaught exc => simp [processFromE, firstUncaught, hf]
    | caught exc =>
      cases hu : firstUncaught rest with
      | some e =>
        simp [processFromE, firstUncaught, hf, ih (idx + 1), hu]
      | none =>
        simp [processFromE, firstUncaught, errEntryE, hf, ih (idx + 1), hu,
          processFrom, RawFile.toSrc]
    | ok data =>
      by_cases ht : pyStrip (extract_searchable_text data) = ""
      · cases hu : firstUncaught rest with
        | some e =>
          simp [processFromE, firstUncaught, hf, ht, ih (idx + 1), hu]
        | none =>
          simp [processFromE, firstUncaught, errEntryE, hf, ht, ih (idx + 1), hu,
            processFrom, RawFile.toSrc]
      · cases hu : firstUncaught rest with
        | some e =>
          simp [processFromE, firstUncaught, hf, ht, ih (idx + 1), hu]
        | none =>
          simp [processFromE, firstUncaught, errEntryE, hf, ht, ih (idx + 1), hu,
            processFrom, RawFile.toSrc]

/-- C2 (counterexample): the walk's `except` clause names only
`json.JSONDecodeError` and `FileNotFoundError`, so a file that is merely
unreadable — e.g. a `PermissionError` on open — propagates: the batch
aborts with that exception, the earlier file's work is discarded and the
later file is never processed, refuting "a single bad file never aborts
the batch" for the unreadable category. -/
theorem unreadable_file_aborts_counterexample :
    processFromE 0
      [⟨["ok1.json"], .ok (.obj [("summary", .str "one")])⟩,
       ⟨["locked.json"], .uncaught "PermissionError"⟩,
       ⟨["ok2.json"], .ok (.obj [("summary", .str "two")])⟩]
      = .error "PermissionError" := rfl

/-- C2 (amended): a file whose read raises one of the two caught
exceptions — `json.JSONDecodeError` for a malformed file,
`FileNotFoundError` for a missing one — is logged (path and exception
message) and skipped, contributing nothing to the three output
sequences, and the remaining files are still processed; but a file whose
read raises any other exception (e.g. `PermissionError` on an unreadable
path) aborts the batch with that exception.  In runs where every failure
is caught, the walk returns exactly the collapsed-view walk's documents,
metadata and ids. -/
theorem caught_error_skipped_uncaught_aborts :
    (∀ (pre : List RawFile) (f : RawFile) (post : List RawFile) (exc : String),
      f.outcome = .caught exc →
      (∀ g ∈ pre ++ post, g.isUncaught = false) →
      processFromE 0 (pre ++ f :: post) =
        .ok { documents := (processFrom 0 (pre.map RawFile.toSrc)).documents ++
                (processFrom (pre.length + 1) (post.map RawFile.toSrc)).documents
              metadatas := (processFrom 0 (pre.map RawFile.toSrc)).metadatas ++
                (processFrom (pre.length + 1) (post.map RawFile.toSrc)).metadatas
              ids := (processFrom 0 (pre.map RawFile.toSrc)).ids ++
                (processFrom (pre.length + 1) (post.map RawFile.toSrc)).ids
              log := pre.filterMap errEntryE ++ errMsgE f exc ::
                post.filterMap errEntryE }) ∧
    (∀ (pre : List RawFile) (f : RawFile) (post : List RawFile) (exc : String),
      f.outcome = .uncaught exc →
      (∀ g ∈ pre, g.isUncaught = false) →
      processFromE 0 (pre ++ f :: post) = .error exc) ∧
    (∀ files : List RawFile,
      (∀ g ∈ files, g.isUncaught = false) →
      processFromE 0 files =
        .ok { documents := (processFrom 0 (files.map RawFile.toSrc)).documents
              metadatas := (processFrom 0 (files.map RawFile.toSrc)).metadatas
              ids := (processFrom 0 (files.map RawFile.toSrc)).ids
              log := files.filterMap errEntryE }) := by
  refine ⟨?_, ?_, ?_⟩
  · intro pre f post exc hf hclean
    have hpre : firstUncaught pre = none :=
      (firstUncaught_eq_none_iff pre).mpr
        (fun g hg => hclean g (List.mem_append_left post hg))
    have hpost : firstUncaught post = none :=
      (firstUncaught_eq_none_iff post).mpr
        (fun g hg => hclean g (List.mem_append_right pre hg))
    have hall : firstUncaught (pre ++ f :: post) = none := by
      rw [firstUncaught_append_of_none pre (f :: post) hpre, firstUncaught, hf]
      exact hpost
    rw [processFromE_eq, hall]
    have hsplit := processFrom_split_err (pre.map RawFile.toSrc) (RawFile.toSrc f)
      (post.map RawFile.toSrc) (by rw [RawFile.toSrc, hf])
    have hmap : (pre ++ f :: post).map RawFile.toSrc =
        pre.map RawFile.toSrc ++ RawFile.toSrc f :: post.map RawFile.toSrc := by
      simp
    refine congrArg Except.ok (WalkResult.ext ?_ ?_ ?_ ?_)
    · rw [hmap]
      have := congrArg WalkResult.documents hsplit
      rw [process_notification_files] at this
      simpa [List.length_map] using this
    · rw [hmap]
      have := congrArg WalkResult.metadatas hsplit
      rw [process_notification_files] at this
      simpa [List.length_map] using this
    · rw [hmap]
      have := congrArg WalkResult.ids hsplit
      rw [process_notification_files] at this
      simpa [List.length_map] using this
    · simp [List.filterMap_append, List.filterMap_cons, errEntryE, hf]
  · intro pre f post exc hf hclean
    have hpre : firstUncaught pre = none :=
      (firstUncaught_eq_none_iff pre).mpr hclean
    rw [processFromE_eq,
      firstUncaught_append_of_none pre (f :: post) hpre, firstUncaught, hf]
  · intro files hclean
    rw [processFromE_eq, (firstUncaught_eq_none_iff files).mpr hclean]

/-- C2 (witness): a three-file batch whose middle file raises
`json.JSONDecodeError` returns the two good documents' ids (with the
walk ordinal gap) and one `Error processing ...` log entry carrying the
exception message. -/
theorem caught_error_skipped_uncaught_aborts_witness :
    ∃ r : WalkResult,
      processFromE 0
          [⟨["ok1.json"], .ok (.obj [("summary", .str "one")])⟩,
           ⟨["bad.json"], .caught "Expecting value: line 1 column 1 (char 0)"⟩,
           ⟨["ok2.json"], .ok (.obj [("summary", .str "two")])⟩]
        = .ok r ∧
      r.documents = ["one", "two"] ∧
      r.ids = ["notification_0", "notification_2"] ∧
      r.log = ["Error processing bad.json: Expecting value: line 1 column 1 (char 0)"] := by
  have h := caught_error_skipped_uncaught_aborts.1
      [⟨["ok1.json"], .ok (.obj [("summary", .str "one")])⟩]
      ⟨["bad.json"], .caught "Expecting value: line 1 column 1 (char 0)"⟩
      [⟨["ok2.json"], .ok (.obj [("summary", .str "two")])⟩]
      "Expecting value: line 1 column 1 (char 0)" rfl (by decide)
  exact ⟨_, h, rfl, rfl, rfl⟩

/-- C3: the three accumulated sequences always have equal length (aligned
1:1:1), and a parsed record whose composed searchable text strips to
empty contributes no document, no metadata entry and no id (and no log
entry), with the rest of the batch processed as usual. -/
theorem empty_text_skipped_and_aligned :
    (∀ files : List SrcFile,
      ((process_notification_files files).documents.length =
        (process_notification_files files).metadatas.length) ∧
      ((process_notification_files files).metadatas.length =
        (process_notification_files files).ids.length)) ∧
    (∀ (pre : List SrcFile) (f : SrcFile) (post : List SrcFile) (d : JsonValue),
      f.content = some d → pyStrip (extract_searchable_text d) = "" →
      process_notification_files (pre ++ f :: post) =
        { documents := (processFrom 0 pre).documents ++
            (processFrom (pre.length + 1) post).documents
          metadatas := (processFrom 0 pre).metadatas ++
            (processFrom (pre.length + 1) post).metadatas
          ids := (processFrom 0 pre).ids ++ (processFrom (pre.length + 1) post).ids
          log := (processFrom 0 pre).log ++ (processFrom (pre.length + 1) post).log }) := by
  constructor
  · intro files
    exact walk_len 0 files
  · intro pre f post d hf ht
    ext : 1
    all_goals
      simp [process_notification_files, processFrom_documents, processFrom_metadatas,
        processFrom_ids, processFrom_log, List.filterMap_append, acceptedDoc, acceptedMeta,
        errEntry, hf, ht, enumFrom_append, List.filter_append]

/-- C3 (witness): a record whose only searchable field is a
whitespace-only summary is excluded entirely; the batch keeps the other
document, no error is logged, and the sequences stay aligned. -/
theorem empty_text_skipped_and_aligned_witness :
    ((process_notification_files
        [⟨["a.json"], some (.obj [("summary", .str "real")])⟩,
         ⟨["ws.json"], some (.obj [("summary", .str "  ")])⟩]).documents = ["real"]) ∧
    ((process_notification_files
        [⟨["a.json"], some (.obj [("summary", .str "real")])⟩,
         ⟨["ws.json"], some (.obj [("summary", .str "  ")])⟩]).ids = ["notification_0"]) ∧
    ((process_notification_files
        [⟨["a.json"], some (.obj [("summary", .str "real")])⟩,
         ⟨["ws.json"], some (.obj [("summary", .str "  ")])⟩]).log = []) := by
  have h := empty_text_skipped_and_aligned.2
      [⟨["a.json"], some (.obj [("summary", .str "real")])⟩]
      ⟨["ws.json"], some (.obj [("summary", .str "  ")])⟩
      [] (.obj [("summary", .str "  ")]) rfl (by decide)
  exact ⟨(congrArg WalkResult.documents h).trans rfl,
    (congrArg WalkResult.ids h).trans rfl,
    (congrArg WalkResult.log h).trans rfl⟩

/-- C4: for every input text, `extract_variables` returns exactly the
names captured by the left-to-right scan of the pattern "dollar sign,
opening brace, one or more non-brace characters, closing brace", as a
duplicate-free sequence in lexicographically sorted order; in particular
`${A}`, `${B}`, `${A}` yields `["A", "B"]` and empty input yields `[]`. -/
theorem extract_variables_sorted_dedup :
    (∀ text : String,
      (extract_variables text).Sorted (· ≤ ·) ∧
      (extract_variables text).Nodup ∧
      (∀ s : String, s ∈ extract_variables text ↔ s ∈ scanPlaceholders text)) ∧
    (extract_variables "text ${A} and ${B} plus ${A}" = ["A", "B"]) ∧
    (extract_variables "" = []) := by
  refine ⟨?_, by decide, rfl⟩
  intro text
  by_cases h : text = ""
  · subst h
    refine ⟨List.sorted_nil, List.nodup_nil, ?_⟩
    intro s
    rw [show extract_variables "" = [] from rfl,
      show scanPlaceholders "" = [] from rfl]
  · rw [extract_variables, if_neg h]
    exact ⟨pySortDedup_sorted _, pySortDedup_nodup _, fun s => mem_pySortDedup _ s⟩

/-!  ### The searchable-text composer against the spec's description  -/

theorem filterMap_quad {α β : Type} (g : α → Option β) (a b c d : α) :
    List.filterMap g [a, b, c, d] =
      (g a).toList ++ (g b).toList ++ (g c).toList ++ (g d).toList := by
  cases ha : g a <;> cases hb : g b <;> cases hc : g c <;> cases hd : g d <;>
    simp [List.filterMap_cons, ha, hb, hc, hd]

theorem fieldPart_eq (d : JsonValue) (field : String)
    (h : strOrAbsentB d field = true) :
    (match d.getField field with
     | some v => if v.pyTruthy then some v.pyStr else none
     | none => none) =
    (match strField d field with
     | some s => if s = "" then none else some s
     | none => none) := by
  unfold strOrAbsentB at h
  cases hv : d.getField field with
  | none => simp [strField, hv]
  | some v =>
    rw [hv] at h
    cases v with
    | str s =>
      simp only [strField, hv]
      by_cases hs : s = ""
      · subst hs
        simp [JsonValue.pyTruthy, JsonValue.pyStr]
      · simp [JsonValue.pyTruthy, JsonValue.pyStr, hs]
    | null => simp at h
    | bool b => simp at h
    | num n => simp at h
    | arr xs => simp at h
    | obj fs => simp at h

theorem allStr_map_pyStr :
    ∀ xs : List JsonValue,
      xs.all (fun v => match v with | .str _ => true | _ => false) = true →
      xs.map JsonValue.pyStr =
        xs.filterMap (fun v => match v with | .str s => some s | _ => none) := by
  intro xs
  induction xs with
  | nil => intro _; rfl
  | cons v rest ih =>
    intro h
    rw [List.all_cons, Bool.and_eq_true] at h
    cases v with
    | str s => simp [List.filterMap_cons, JsonValue.pyStr, ih h.2]
    | null => simp at h
    | bool b => simp at h
    | num n => simp at h
    | arr ys => simp at h
    | obj fs => simp at h

theorem tagsPart_eq (d : JsonValue) (h : strTagsB d = true) :
    (match d.getField "_tags" with
     | some v => if v.pyTruthy then tagStrings v else []
     | none => []) =
    (match d.getField "_tags" with
     | some (.arr xs) =>
         xs.filterMap (fun v => match v with | .str s => some s | _ => none)
     | _ => []) := by
  unfold strTagsB at h
  cases hv : d.getField "_tags" with
  | none => rfl
  | some v =>
    rw [hv] at h
    cases v with
    | arr xs =>
      cases xs with
      | nil => simp [JsonValue.pyTruthy, tagStrings]
      | cons y ys =>
        simp only [JsonValue.pyTruthy, List.isEmpty_cons, tagStrings]
        rw [if_pos (by simp)]
        exact allStr_map_pyStr (y :: ys) h
    | null => simp at h
    | bool b => simp at h
    | num n => simp at h
    | str s => simp at h
    | obj fs => simp at h

/-- C5: on every record matching the spec's data model (text fields
absent or strings, `_tags` absent or an array of strings), the code's
searchable-text composer agrees with the spec's description — `summary`,
`description`, `log_type`, `service_name`, then each tag in order, joined
by single spaces, absent or empty fields contributing nothing — and the
composer is deterministic. -/
theorem searchable_text_matches_spec :
    (∀ d : JsonValue, wellFormedB d = true →
      extract_searchable_text d = composerSpec (toRecordView d)) ∧
    (∀ d₁ d₂ : JsonValue, d₁ = d₂ →
      extract_searchable_text d₁ = extract_searchable_text d₂) := by
  constructor
  · intro d hwf
    rw [wellFormedB, Bool.and_eq_true] at hwf
    obtain ⟨hfields, htags⟩ := hwf
    simp only [List.all_cons, List.all_nil, Bool.and_eq_true, and_true] at hfields
    obtain ⟨h1, h2, h3, h4⟩ := hfields
    simp only [extract_searchable_text, composerSpec, toRecordView, filterMap_quad]
    rw [fieldPart_eq d "summary" h1, fieldPart_eq d "description" h2,
      fieldPart_eq d "log_type" h3, fieldPart_eq d "service_name" h4,
      tagsPart_eq d htags]
  · intro d₁ d₂ h
    rw [h]

/-- C5 (witness): a concrete well-formed record with all four fields and
two tags composes exactly as the spec describes. -/
theorem searchable_text_matches_spec_witness :
    (wellFormedB (.obj [("summary", .str "s"), ("description", .str "d"),
        ("log_type", .str "lt"), ("service_name", .str "svc"),
        ("_tags", .arr [.str "t1", .str "t2"])]) = true) ∧
    extract_searchable_text (.obj [("summary", .str "s"), ("description", .str "d"),
        ("log_type", .str "lt"), ("service_name", .str "svc"),
        ("_tags", .arr [.str "t1", .str "t2"])]) =
      composerSpec (toRecordView (.obj [("summary", .str "s"), ("description", .str "d"),
        ("log_type", .str "lt"), ("service_name", .str "svc"),
        ("_tags", .arr [.str "t1", .str "t2"])])) := by
  refine ⟨by decide, ?_⟩
  exact searchable_text_matches_spec.1 _ (by decide)

/-!  ### Access lemmas for the result reconstructor  -/

theorem formatResults_length (ids : List String) (metadatas : List Meta)
    (distances : List ℚ) (documents : List String) :
    (formatResults ids metadatas distances documents).length = ids.length := by
  simp [formatResults]

theorem formatResults_getD (ids : List String) (metadatas : List Meta)
    (distances : List ℚ) (documents : List String) (i : Nat) (h : i < ids.length) :
    (formatResults ids metadatas distances documents).getD i emptyResult =
      mkResult (ids.getD i "") (metadatas.getD i []) (distances.getD i 0)
        (documents.getD i "") := by
  simp [formatResults, List.getD_eq_getElem?_getD, List.getElem?_map,
    List.getElem?_range h]

/-- C6: the reconstructor produces exactly one result per id, in the
store's order (result `i` carries id `i` — no re-ranking); the distance
defaults to `0` where the distances array does not cover the index and
otherwise is the stored one, similarity is `1 - distance`, document text
defaults to the empty string, and an uncovered metadata index behaves as
an empty record (all string fields defaulted, `internal_only = false`,
empty variables and notification). -/
theorem reconstructor_order_defaults (ids : List String) (metadatas : List Meta)
    (distances : List ℚ) (documents : List String) :
    ((formatResults ids metadatas distances documents).length = ids.length) ∧
    (∀ (i : Nat) (h : i < ids.length),
      (((formatResults ids metadatas distances documents).getD i emptyResult).id
        = ids.get ⟨i, h⟩) ∧
      (∀ h2 : i < distances.length,
        ((formatResults ids metadatas distances documents).getD i emptyResult).distance
          = distances.get ⟨i, h2⟩) ∧
      (distances.length ≤ i →
        ((formatResults ids metadatas distances documents).getD i emptyResult).distance
          = 0) ∧
      (((formatResults ids metadatas distances documents).getD i emptyResult).similarity
        = 1 - ((formatResults ids metadatas distances documents).getD i
            emptyResult).distance) ∧
      (∀ h3 : i < documents.length,
        ((formatResults ids metadatas distances documents).getD i
            emptyResult).document_text = documents.get ⟨i, h3⟩) ∧
      (documents.length ≤ i →
        ((formatResults ids metadatas distances documents).getD i
            emptyResult).document_text = "") ∧
      (metadatas.length ≤ i →
        ((formatResults ids metadatas distances documents).getD i emptyResult).file_path
            = "" ∧
        ((formatResults ids metadatas distances documents).getD i emptyResult).folder
            = "" ∧
        ((formatResults ids metadatas distances documents).getD i emptyResult).severity
            = "Unknown" ∧
        ((formatResults ids metadatas distances documents).getD i
            emptyResult).service_name = "Unknown" ∧
        ((formatResults ids metadatas distances documents).getD i emptyResult).log_type
            = "Unknown" ∧
        ((formatResults ids metadatas distances documents).getD i
            emptyResult).internal_only = false ∧
        ((formatResults ids metadatas distances documents).getD i emptyResult).vars
            = .arr [] ∧
        ((formatResults ids metadatas distances documents).getD i
            emptyResult).notification = .obj [])) := by
  refine ⟨formatResults_length ids metadatas distances documents, ?_⟩
  intro i h
  rw [formatResults_getD ids metadatas distances documents i h]
  refine ⟨?_, ?_, ?_, ?_, ?_, ?_, ?_⟩
  · simp [mkResult, List.getElem?_eq_getElem h]
  · intro h2
    simp [mkResult, List.getElem?_eq_getElem h2]
  · intro h2
    simp [mkResult, List.getElem?_eq_none h2]
  · simp [mkResult]
  · intro h3
    simp [mkResult, List.getElem?_eq_getElem h3]
  · intro h3
    simp [mkResult, List.getElem?_eq_none h3]
  · intro h4
    rw [List.getD_eq_default _ _ h4]
    exact ⟨rfl, rfl, rfl, rfl, rfl, rfl, rfl, rfl⟩

/-- C6 (witness): a two-id bundle whose distances and documents arrays
only cover index 0 gives result 1 the defaults and keeps the store
order. -/
theorem reconstructor_order_defaults_witness :
    (((formatResults ["notification_3", "notification_5"]
        [[("severity", .str "Critical")]] [(1 : ℚ)/4] ["doc0"]).getD 1 emptyResult).id
      = "notification_5") ∧
    (((formatResults ["notification_3", "notification_5"]
        [[("severity", .str "Critical")]] [(1 : ℚ)/4] ["doc0"]).getD 1
          emptyResult).distance = 0) ∧
    (((formatResults ["notification_3", "notification_5"]
        [[("severity", .str "Critical")]] [(1 : ℚ)/4] ["doc0"]).getD 1
          emptyResult).severity = "Unknown") := by
  have h := (reconstructor_order_defaults ["notification_3", "notification_5"]
      [[("severity", .str "Critical")]] [(1 : ℚ)/4] ["doc0"]).2 1 (by decide)
  exact ⟨h.1, h.2.2.1 (by decide), (h.2.2.2.2.2.2 (by decide)).2.2.1⟩

/-- C7: a stored record whose `full_json` metadata field is absent, or
present but not parseable as JSON, reconstructs with `notification`
equal to the empty object; likewise an absent or unparseable `variables`
field yields the empty list; no error is raised and the result list still
covers every id. -/
theorem metadata_decode_failure_defaults (ids : List String) (metadatas : List Meta)
    (distances : List ℚ) (documents : List String) (i : Nat) (h : i < ids.length) :
    (((metadatas.getD i []).lookup "full_json" = none ∨
      (∃ v, (metadatas.getD i []).lookup "full_json" = some v ∧
        jsonParse v.pyStr = none)) →
      ((formatResults ids metadatas distances documents).getD i
          emptyResult).notification = .obj []) ∧
    (((metadatas.getD i []).lookup "variables" = none ∨
      (∃ v, (metadatas.getD i []).lookup "variables" = some v ∧
        jsonParse v.pyStr = none)) →
      ((formatResults ids metadatas distances documents).getD i emptyResult).vars
        = .arr []) ∧
    ((formatResults ids metadatas distances documents).length = ids.length) := by
  rw [formatResults_getD ids metadatas distances documents i h]
  refine ⟨?_, ?_, formatResults_length ids metadatas distances documents⟩
  · rintro (hnone | ⟨v, hv, hparse⟩)
    · simp only [mkResult]
      rw [hnone]
      rfl
    · simp only [mkResult]
      rw [hv]
      cases hb : v.pyTruthy
      · simp [hb]
      · simp [hb, hparse]
  · rintro (hnone | ⟨v, hv, hparse⟩)
    · simp only [mkResult]
      rw [hnone]
      rfl
    · simp only [mkResult]
      rw [hv]
      cases hb : v.pyTruthy
      · simp [hb]
      · simp [hb, hparse]

/-- C7 (witness): metadata whose `full_json` holds non-JSON text and
whose `variables` field is absent degrades to the empty object and empty
list. -/
theorem metadata_decode_failure_defaults_witness :
    (((formatResults ["notification_0"] [[("full_json", .str "not json")]] [] []).getD 0
        emptyResult).notification = .obj []) ∧
    (((formatResults ["notification_0"] [[("full_json", .str "not json")]] [] []).getD 0
        emptyResult).vars = .arr []) := by
  have h := metadata_decode_failure_defaults ["notification_0"]
      [[("full_json", .str "not json")]] [] [] 0 (by decide)
  exact ⟨h.1 (Or.inr ⟨.str "not json", rfl, rfl⟩), h.2.1 (Or.inl rfl)⟩

/-- C10: whatever type the stored metadata holds at the string-typed
result keys, the reconstructor coerces it with Python `str(...)` (and
`bool(...)` truthiness for `internal_only`) instead of rejecting it, so
those result fields are always strings and `internal_only` is always a
boolean. -/
theorem result_fields_coerced (ids : List String) (metadatas : List Meta)
    (distances : List ℚ) (documents : List String) (i : Nat) (h : i < ids.length) :
    (∀ v, (metadatas.getD i []).lookup "file_path" = some v →
      ((formatResults ids metadatas distances documents).getD i emptyResult).file_path
        = v.pyStr) ∧
    (∀ v, (metadatas.getD i []).lookup "folder" = some v →
      ((formatResults ids metadatas distances documents).getD i emptyResult).folder
        = v.pyStr) ∧
    (∀ v, (metadatas.getD i []).lookup "severity" = some v →
      ((formatResults ids metadatas distances documents).getD i emptyResult).severity
        = v.pyStr) ∧
    (∀ v, (metadatas.getD i []).lookup "service_name" = some v →
      ((formatResults ids metadatas distances documents).getD i
          emptyResult).service_name = v.pyStr) ∧
    (∀ v, (metadatas.getD i []).lookup "log_type" = some v →
      ((formatResults ids metadatas distances documents).getD i emptyResult).log_type
        = v.pyStr) ∧
    (∀ v, (metadatas.getD i []).lookup "internal_only" = some v →
      ((formatResults ids metadatas distances documents).getD i
          emptyResult).internal_only = v.pyTruthy) := by
  rw [formatResults_getD ids metadatas distances documents i h]
  refine ⟨?_, ?_, ?_, ?_, ?_, ?_⟩ <;> intro v hv <;> simp only [mkResult] <;> rw [hv] <;>
    rfl

/-- C10 (witness): an integer-valued `severity` is coerced to the string
`"3"` and an integer-valued `internal_only` to `true`. -/
theorem result_fields_coerced_witness :
    (((formatResults ["notification_0"]
        [[("severity", .num 3), ("internal_only", .num 2)]] [] []).getD 0
          emptyResult).severity = "3") ∧
    (((formatResults ["notification_0"]
        [[("severity", .num 3), ("internal_only", .num 2)]] [] []).getD 0
          emptyResult).internal_only = true) := by
  have h := result_fields_coerced ["notification_0"]
      [[("severity", .num 3), ("internal_only", .num 2)]] [] [] 0 (by decide)
  exact ⟨(h.2.2.1 (.num 3) rfl).trans rfl, (h.2.2.2.2.2 (.num 2) rfl).trans rfl⟩

/-- C8: when the store returns no matches — the ids array absent, empty,
or with an empty first row — the query orchestrator returns the empty
sequence rather than raising, and the serving layer maps it to a single
advisory record with a message and a suggestion; the tool never returns a
raw empty list. -/
theorem zero_match_advisory :
    (∀ results : QueryResults,
      (results.ids = none ∨ results.ids = some [] ∨
        (∃ rest, results.ids = some ([] :: rest))) →
      search_notifications results = [] ∧
      search_service_logs results =
        [ToolOutput.advisory "No matching notifications found"
          "Try using different keywords or check if the database contains relevant notifications"]) ∧
    (∀ results : QueryResults, search_service_logs results ≠ []) := by
  constructor
  · intro res h
    have h1 : search_notifications res = [] := by
      rcases h with h | h | ⟨rest, h⟩ <;> simp [search_notifications, h]
    refine ⟨h1, ?_⟩
    rw [search_service_logs, h1]
    rfl
  · intro res
    simp only [search_service_logs]
    cases hrs : search_notifications res with
    | nil => simp [hrs]
    | cons a rest => simp [hrs]

/-- C8 (witness): a bundle with no ids array yields the empty sequence
from the orchestrator and the single advisory record from the tool. -/
theorem zero_match_advisory_witness :
    search_notifications ⟨none, none, none, none⟩ = [] ∧
    search_service_logs ⟨none, none, none, none⟩ =
      [ToolOutput.advisory "No matching notifications found"
        "Try using different keywords or check if the database contains relevant notifications"] :=
  zero_match_advisory.1 ⟨none, none, none, none⟩ (Or.inl rfl)

/-!  ### Database stats  -/

theorem statsField_spec (metadatas : List Meta) (key : String) :
    (statsField metadatas key).Sorted (· ≤ ·) ∧
    (statsField metadatas key).Nodup ∧
    (∀ s, s ∈ statsField metadatas key ↔ ∃ m ∈ metadatas, statValue m key = s) := by
  refine ⟨pySortDedup_sorted _, pySortDedup_nodup _, ?_⟩
  intro s
  rw [statsField, mem_pySortDedup]
  simp [List.mem_map]

/-- C9: the stats operation reports `total_notifications` equal to the
store's document count, and for each of `folder`, `severity` and
`service_name` the lexicographically sorted, duplicate-free list of the
stringified stored values, substituting `"unknown"` where a record lacks
the key; the spec's example corpus yields exactly the expected sorted
lists.  (The operation is embedded as a pure function of the store state:
it only reads `count()` and `get()`.) -/
theorem database_stats_sorted_distinct :
    (∀ store : StoreState,
      ((get_database_stats store).total_notifications = store.count) ∧
      (((get_database_stats store).folders.Sorted (· ≤ ·)) ∧
        ((get_database_stats store).folders.Nodup) ∧
        (∀ s, s ∈ (get_database_stats store).folders ↔
          ∃ m ∈ store.metadatas.getD [], statValue m "folder" = s)) ∧
      (((get_database_stats store).severities.Sorted (· ≤ ·)) ∧
        ((get_database_stats store).severities.Nodup) ∧
        (∀ s, s ∈ (get_database_stats store).severities ↔
          ∃ m ∈ store.metadatas.getD [], statValue m "severity" = s)) ∧
      (((get_database_stats store).service_names.Sorted (· ≤ ·)) ∧
        ((get_database_stats store).service_names.Nodup) ∧
        (∀ s, s ∈ (get_database_stats store).service_names ↔
          ∃ m ∈ store.metadatas.getD [], statValue m "service_name" = s))) ∧
    (((get_database_stats ⟨2, some
        [[("folder", .str "hcp"), ("severity", .str "Critical")],
         [("folder", .str "osd")]]⟩).total_notifications = 2) ∧
     ((get_database_stats ⟨2, some
        [[("folder", .str "hcp"), ("severity", .str "Critical")],
         [("folder", .str "osd")]]⟩).folders = ["hcp", "osd"]) ∧
     ((get_database_stats ⟨2, some
        [[("folder", .str "hcp"), ("severity", .str "Critical")],
         [("folder", .str "osd")]]⟩).severities = ["Critical", "unknown"]) ∧
     ((get_database_stats ⟨2, some
        [[("folder", .str "hcp"), ("severity", .str "Critical")],
         [("folder", .str "osd")]]⟩).service_names = ["unknown"])) := by
  constructor
  · intro store
    cases hM : store.metadatas.getD [] with
    | nil =>
      simp only [get_database_stats, hM, List.isEmpty_nil, if_true]
      exact ⟨by trivial,
        ⟨List.sorted_nil, List.nodup_nil, fun s => by simp⟩,
        ⟨List.sorted_nil, List.nodup_nil, fun s => by simp⟩,
        ⟨List.sorted_nil, List.nodup_nil, fun s => by simp⟩⟩
    | cons m0 rest =>
      simp only [get_database_stats, hM, List.isEmpty_cons, if_false, Bool.false_eq_true]
      exact ⟨by trivial,
        ⟨(statsField_spec (m0 :: rest) "folder").1,
          (statsField_spec (m0 :: rest) "folder").2.1,
          (statsField_spec (m0 :: rest) "folder").2.2⟩,
        ⟨(statsField_spec (m0 :: rest) "severity").1,
          (statsField_spec (m0 :: rest) "severity").2.1,
          (statsField_spec (m0 :: rest) "severity").2.2⟩,
        ⟨(statsField_spec (m0 :: rest) "service_name").1,
          (statsField_spec (m0 :: rest) "service_name").2.1,
          (statsField_spec (m0 :: rest) "service_name").2.2⟩⟩
  · exact ⟨rfl, by decide, by decide, by decide⟩

/-- Fidelity checks of the `json.loads` model at concrete inputs. -/
theorem jsonParse_checks :
    (jsonParse "\x7b\x7d" = some (.obj [])) ∧
    (jsonParse "[]" = some (.arr [])) ∧
    (jsonParse "[\"A\", \"B\"]" = some (.arr [.str "A", .str "B"])) ∧
    (jsonParse "\x7b\"a\": 1, \"b\": [true, null]\x7d" =
      some (.obj [("a", .num 1), ("b", .arr [.bool true, .null])])) ∧
    (jsonParse "not json" = none) ∧
    (jsonParse "\x7b\"a\": 1" = none) :=
  ⟨rfl, rfl, rfl, rfl, rfl, rfl⟩

/-- Fidelity checks of the placeholder scan at concrete inputs,
duplicates retained in scan order; a nested dollar-brace is swallowed by
the non-brace run exactly as the regex does. -/
theorem scanPlaceholders_checks :
    (scanPlaceholders "a $\x7bA\x7d b $\x7bB\x7d c $\x7bA\x7d" = ["A", "B", "A"]) ∧
    (scanPlaceholders "$\x7bA$\x7bB\x7d" = ["A$\x7bB"]) ∧
    (scanPlaceholders "$\x7b\x7d" = []) ∧
    (scanPlaceholders "no placeholders" = []) :=
  ⟨rfl, rfl, rfl, rfl⟩
